import Mathlib

/-!
Verification development for the same-domain breadth-first web crawler
(`src/lib/crawler.ts`).  The crawler's pure string processing is embedded
directly; its external collaborators (the network `fetch`, the cheerio DOM
parser, the WHATWG `URL` library, the key-value storage and the wall clock)
are modelled as explicit parameters: a fetch-attempt oracle, a parse oracle
producing an abstract document, and strings standing in for generated ids
and timestamps.  Storage writes are modelled as an explicit trace of stored
records, so that "persisted before returned" is a statement about the trace.

Strings are processed through their character lists so that every
definition is executable by the kernel and provable by ordinary list
induction.  JavaScript semantics notes are attached to each helper.
-/

/-- Character class of the JavaScript regex `\s` restricted to the ASCII
whitespace characters that can actually occur in the crawler's inputs
(space, tab, line feed, carriage return, vertical tab, form feed). -/
def jsWs (c : Char) : Bool :=
  c == ' ' || c == '\t' || c == '\n' || c == '\r' || c == '\x0b' || c == '\x0c'

/-- Character class of the regex `[.!?]` used by `generateSummary`. -/
def sentencePunct (c : Char) : Bool :=
  c == '.' || c == '!' || c == '?'

/-- List-level check that the first list is an initial segment of the second. -/
def startsWithL : List Char → List Char → Bool
  | [], _ => true
  | _ :: _, [] => false
  | a :: as, b :: bs => a == b && startsWithL as bs

/-- List-level substring occurrence test; models JavaScript `String.includes`. -/
def hasSubL (nd : List Char) : List Char → Bool
  | [] => nd.isEmpty
  | c :: cs => startsWithL nd (c :: cs) || hasSubL nd cs

/-- Model of JavaScript `hay.includes(nd)`. -/
def substrIn (nd hay : String) : Bool :=
  hasSubL nd.toList hay.toList

/-- Model of JavaScript `s.endsWith(suf)`; used to state the non-HTML
extension filter (`/\.(pdf|...)$/i`) and the terminal-period property. -/
def endsWithS (suf s : String) : Bool :=
  startsWithL suf.toList.reverse s.toList.reverse

/-- Model of JavaScript `s.substring(0, n)` (counted in characters). -/
def strTake (n : Nat) (s : String) : String :=
  String.mk (s.toList.take n)

/-- List-level model of JavaScript `String.trim` (both ends). -/
def trimL (l : List Char) : List Char :=
  ((l.dropWhile jsWs).reverse.dropWhile jsWs).reverse

/-- Model of JavaScript `s.trim()`. -/
def trimS (s : String) : String :=
  String.mk (trimL s.toList)

/-- Model of the replacement `.replace(/\s+/g, " ")`: every maximal run of
whitespace becomes a single space.  The source follows this with
`.replace(/\n\s*\n/g, "\n")` and `.replace(/\t/g, " ")`; after the first
replacement the string contains no `\n` and no `\t`, so those two steps are
the identity and are not embedded separately. -/
def collapseWsL : List Char → List Char
  | [] => []
  | c :: cs =>
    let r := collapseWsL cs
    if jsWs c then
      match r with
      | ' ' :: _ => r
      | _ => ' ' :: r
    else c :: r

/-- Case-insensitive match of the pattern against an initial segment of the
input; on success returns the input with the matched segment removed. -/
def dropCI : List Char → List Char → Option (List Char)
  | [], l => some l
  | _ :: _, [] => none
  | p :: ps, c :: cs => if p.toLower == c.toLower then dropCI ps cs else none

/-- Fuel-driven worker for `stripCI`.  Each step consumes at least one input
character (the patterns used are non-empty), so fuel `input length + 1`
always suffices; the fuel only makes the recursion structural. -/
def stripCIGo (pat : List Char) : Nat → List Char → List Char
  | 0, l => l
  | _ + 1, [] => []
  | fuel + 1, c :: cs =>
    match dropCI pat (c :: cs) with
    | some rest => stripCIGo pat fuel rest
    | none => c :: stripCIGo pat fuel cs

/-- Model of `s.replace(pat-regex-gi, "")`: removes the non-overlapping,
left-to-right, case-insensitive occurrences of a literal pattern. -/
def stripCI (pat : String) (s : String) : String :=
  String.mk (stripCIGo pat.toList (s.toList.length + 1) s.toList)

/-- Worker for JavaScript `String.split` on a one-or-more character-class
regex.  `acc` holds the current token (reversed); `inSep` records whether
the previous character belonged to the current separator run.  JavaScript
yields an empty leading/trailing token when the string starts/ends with a
separator, which this reproduces. -/
def splitRunGo (p : Char → Bool) : List Char → List Char → Bool → List (List Char)
  | [], acc, _ => [acc.reverse]
  | c :: cs, acc, inSep =>
    if p c then
      if inSep then splitRunGo p cs acc true
      else acc.reverse :: splitRunGo p cs [] true
    else splitRunGo p cs (c :: acc) false

/-- Model of JavaScript `s.split(regex)` for a one-or-more character-class
regex such as `/\s+/` or `/[.!?]+/`. -/
def jsSplit (p : Char → Bool) (s : String) : List (List Char) :=
  splitRunGo p s.toList [] false

/-- Model of `array.join(". ")` as used by `generateSummary`. -/
def joinDotSpace : List (List Char) → List Char
  | [] => []
  | [x] => x
  | x :: y :: rest => x ++ '.' :: ' ' :: joinDotSpace (y :: rest)

/-- Embedding of `generateSummary` (src/lib/crawler.ts:340-344): split the
content on runs of sentence punctuation, keep fragments whose trimmed length
exceeds 20, join the first three with ". ", trim; append "..." after
truncating to 300 characters, otherwise append ".". -/
def generateSummary (content : String) : String :=
  let sentences := (jsSplit sentencePunct content).filter (fun s => (trimL s).length > 20)
  let summary := trimL (joinDotSpace (sentences.take 3))
  if summary.length > 300 then String.mk (summary.take 300 ++ ('.' :: '.' :: '.' :: []))
  else String.mk (summary ++ ['.'])

/-- Embedding of the word count expression of `crawlSinglePage`
(src/lib/crawler.ts:201): `content.split(/\s+/).filter(w => w.length > 0).length`. -/
def wordCountOf (content : String) : Nat :=
  ((jsSplit jsWs content).filter (fun w => w.length > 0)).length

/-- Specification-side tokenizer, written from the spec's words: the
non-empty tokens obtained by splitting on runs of whitespace.  `acc` holds
the characters of the current token, reversed. -/
def wsTokensGo (p : Char → Bool) : List Char → List Char → List (List Char)
  | [], acc => if acc.isEmpty then [] else [acc.reverse]
  | c :: cs, acc =>
    if p c then
      if acc.isEmpty then wsTokensGo p cs []
      else acc.reverse :: wsTokensGo p cs []
    else wsTokensGo p cs (c :: acc)

/-- Specification-side list of whitespace-delimited non-empty tokens. -/
def whitespaceTokens (s : String) : List (List Char) :=
  wsTokensGo jsWs s.toList []

/-- Parsed pieces of an absolute URL, mirroring the fields of the WHATWG
`URL` object that the crawler reads: `protocol` includes the trailing colon,
`host` includes any port, `hostname` excludes it. -/
structure UrlParts where
  protocol : String
  host : String
  hostname : String
  deriving Repr, DecidableEq

/-- Splits a list at the first occurrence of `nd`, returning the part before
and the part after the occurrence. -/
def breakSub (nd : List Char) : List Char → Option (List Char × List Char)
  | [] => if nd.isEmpty then some ([], []) else none
  | c :: cs =>
    if startsWithL nd (c :: cs) then some ([], (c :: cs).drop nd.length)
    else
      match breakSub nd cs with
      | none => none
      | some (pre, post) => some (c :: pre, post)

/-- Model of the external `new URL(s)` constructor, restricted to the simple
absolute `scheme://host...` URLs the crawler handles; returns `none` where
the constructor would throw.  (Schemes without `//`, such as `mailto:`,
parse to a URL with an empty hostname in the browser; modelling them as a
parse failure is indistinguishable here, because every use either catches
the throw and skips the link, or separately rejects an empty/foreign
hostname.) -/
def parseUrl (url : String) : Option UrlParts :=
  match breakSub (':' :: '/' :: '/' :: []) url.toList with
  | none => none
  | some (scheme, rest) =>
    if scheme.isEmpty then none
    else
      let hostport := rest.takeWhile (fun c => c != '/' && c != '?' && c != '#')
      if hostport.isEmpty then none
      else
        some { protocol := String.mk (scheme ++ [':'])
               host := String.mk hostport
               hostname := String.mk (hostport.takeWhile (fun c => c != ':')) }

/-- Hostname read off a URL string (`new URL(url).hostname`), with `""` for
an unparseable URL. -/
def hostnameOf (url : String) : String :=
  match parseUrl url with
  | some u => u.hostname
  | none => ""

/-- Model of the `fetch` response as the crawler observes it: the `ok` flag,
the numeric status with its text, and the body text (`response.text()`). -/
structure Response where
  ok : Bool
  status : Nat
  statusText : String
  html : String
  deriving Repr, DecidableEq

/-- The blocked-site test of `fetchWithRetry` (src/lib/crawler.ts:273):
a substring match of the three domains against the whole URL string. -/
def urlBlockedSubstr (url : String) : Bool :=
  substrIn "google.com" url || substrIn "facebook.com" url || substrIn "twitter.com" url

/-- The blocked-site error message of `fetchWithRetry` (src/lib/crawler.ts:274-276). -/
def blockedFetchMsg (hostname : String) : String :=
  "This website (" ++ hostname ++ ") blocks automated crawling. Try a different website like example.com, wikipedia.org, or your own website."

/-- Worker for `fetchWithRetry`: `attempt` is the 1-based attempt counter of
the source loop, `rem` the number of attempts still allowed, so `rem = 0`
inside the loop body corresponds to `attempt === maxRetries`.  `att` is the
network oracle giving each attempt's outcome (`Except.error` covers both a
network failure and the 15-second timeout abort; the backoff sleeps are
untimed here).  The `0` case is the `throw new Error("Max retries
exceeded")` after the loop, reachable only when `maxRetries = 0`. -/
def fetchGo (url : String) (att : Nat → Except String Response) : Nat → Nat → Except String Response
  | _, 0 => Except.error "Max retries exceeded"
  | attempt, rem + 1 =>
    match att attempt with
    | Except.ok r => Except.ok r
    | Except.error e =>
      if rem = 0 then
        if urlBlockedSubstr url then Except.error (blockedFetchMsg (hostnameOf url))
        else Except.error e
      else fetchGo url att (attempt + 1) rem

/-- Embedding of `fetchWithRetry` (src/lib/crawler.ts:236-287). -/
def fetchWithRetry (url : String) (maxRetries : Nat) (att : Nat → Except String Response) : Except String Response :=
  fetchGo url att 1 maxRetries

/-- Abstract result of `cheerio.load` after the noise-element removal, as
the crawler queries it: the trimmed-at-source texts are kept raw here and
trimmed where the source trims.  `sel` gives, for a content selector, the
concatenated text of the matched elements (`none` when no element
matches, i.e. `element.length === 0`); `hrefs` lists the `href` attribute
values of the `a[href]` anchors in document order. -/
structure Doc where
  titleText : String
  h1Text : String
  ogTitle : Option String
  metaTitle : Option String
  sel : String → Option String
  hrefs : List String

/-- Status enum of a page record. -/
inductive PageStatus where
  | pending
  | crawling
  | completed
  | error
  deriving Repr, DecidableEq

/-- The page record built by the crawler (interface `CrawledPage`,
src/lib/crawler.ts:4-14); optional fields are absent exactly when the
source object literal omits them. -/
structure CrawledPage where
  id : String
  url : String
  title : String
  content : String
  status : PageStatus
  crawledAt : Option String
  error : Option String
  summary : Option String
  wordCount : Option Nat
  deriving Repr, DecidableEq

/-- The content-container selector priority list (src/lib/crawler.ts:294-307). -/
def contentSelectors : List String :=
  ["main", "article", ".main-content", ".content", ".post-content", ".entry-content",
   ".page-content", "#content", "#main", ".container .row", ".container", "body"]

/-- The selector loop of `extractMainContent` (src/lib/crawler.ts:311-319):
each matching selector overwrites `content` with its trimmed text, and the
loop stops at the first text longer than 100 characters. -/
def selLoop (d : Doc) : List String → String → String
  | [], content => content
  | s :: rest, content =>
    match d.sel s with
    | none => selLoop d rest content
    | some t =>
      let t' := trimS t
      if t'.length > 100 then t' else selLoop d rest t'

/-- The boilerplate phrases stripped case-insensitively
(src/lib/crawler.ts:331-335), in replacement order. -/
def boilerplatePhrases : List String :=
  ["Skip to main content", "Skip to content", "Menu", "Search"]

/-- Embedding of `extractMainContent` (src/lib/crawler.ts:289-338): selector
loop, whole-body fallback below 100 characters, whitespace collapse and
trim, boilerplate stripping, truncation to 15000 characters.  The
noise-element removal at the top of the source function is part of the
`Doc` abstraction (its `sel` texts are post-removal). -/
def extractMainContent (d : Doc) : String :=
  let content := selLoop d contentSelectors ""
  let content :=
    if content = "" || content.length < 100 then trimS ((d.sel "body").getD "") else content
  let content := trimS (String.mk (collapseWsL content.toList))
  let content := boilerplatePhrases.foldl (fun s pat => stripCI pat s) content
  strTake 15000 content

/-- The title resolution chain of `crawlSinglePage` (src/lib/crawler.ts:193-197):
document title, first h1, `og:title` meta, `title` meta, literal fallback.
The two meta lookups are not trimmed in the source. -/
def resolveTitle (d : Doc) : String :=
  let t := trimS d.titleText
  let t := if t = "" then trimS d.h1Text else t
  let t := if t = "" then d.ogTitle.getD "" else t
  let t := if t = "" then d.metaTitle.getD "" else t
  if t = "" then "Untitled Page" else t

/-- The fallible part of `crawlSinglePage` (the `try` block,
src/lib/crawler.ts:182-216): fetch with 3 retries, reject a non-ok status
with an `HTTP <status>: <statusText>` message, parse, extract, and build
the `completed` record.  `att` is the network oracle, `parse` the cheerio
oracle (`Except.error` where `cheerio.load` or `response.text()` would
throw), `pageId` and `now` the generated id and `new Date().toISOString()`. -/
def crawlAttempt (att : Nat → Except String Response) (parse : String → Except String Doc)
    (pageId now url : String) : Except String CrawledPage :=
  match fetchWithRetry url 3 att with
  | Except.error e => Except.error e
  | Except.ok response =>
    if response.ok = false then
      Except.error ("HTTP " ++ toString response.status ++ ": " ++ response.statusText)
    else
      match parse response.html with
      | Except.error e => Except.error e
      | Except.ok d =>
        let content := extractMainContent d
        Except.ok
          { id := pageId
            url := url
            title := strTake 200 (resolveTitle d)
            content := content
            summary := some (generateSummary content)
            wordCount := some (wordCountOf content)
            status := PageStatus.completed
            crawledAt := some now
            error := none }

/-- Embedding of `crawlSinglePage` (src/lib/crawler.ts:177-233).  The second
component is the trace of `storePage` calls, in call order, so persistence
before return is visible; every failure of the `try` block is converted
into the `error` record of the `catch` block (empty content, zero word
count, message of the failure, current timestamp), and the function itself
never fails — its type is total. -/
def crawlSinglePage (att : Nat → Except String Response) (parse : String → Except String Doc)
    (pageId now url : String) : CrawledPage × List CrawledPage :=
  match crawlAttempt att parse pageId now url with
  | Except.ok page => (page, [page])
  | Except.error err =>
    let errorPage : CrawledPage :=
      { id := pageId
        url := url
        title := "Error"
        content := ""
        status := PageStatus.error
        error := some err
        crawledAt := some now
        wordCount := some 0
        summary := none }
    (errorPage, [errorPage])

/-- The environment of external collaborators for one crawl run, all keyed
by URL where the source draws a fresh value per call: `att url` is the
network oracle for the attempts of `fetchWithRetry` against `url`; `parse`
is the cheerio oracle on the fetched body text; `ids` and `now` model
`generateId()` and `new Date().toISOString()` for the page crawled at that
URL (the discovered URL list is duplicate-free, so one value per URL
loses no generality). -/
structure CrawlEnv where
  att : String → Nat → Except String Response
  parse : String → Except String Doc
  ids : String → String
  now : String → String

/-- The deny-list of `discoverUrls` (src/lib/crawler.ts:102). -/
def blockedDomains : List String :=
  ["google.com", "facebook.com", "twitter.com", "instagram.com", "linkedin.com"]

/-- The `BlockedDomain` error message of `discoverUrls` (src/lib/crawler.ts:104-106). -/
def blockedMsg (baseDomain : String) : String :=
  "The domain " ++ baseDomain ++ " typically blocks automated crawling. Please try a different website like example.com, wikipedia.org, or your own website."

/-- The non-HTML extension list of the link filter (src/lib/crawler.ts:154). -/
def nonHtmlExts : List String :=
  ["pdf", "jpg", "jpeg", "png", "gif", "zip", "exe", "doc", "docx", "xls", "xlsx",
   "ppt", "pptx", "mp4", "mp3", "avi", "mov"]

/-- The case-insensitive test `absoluteUrl.match(/\.(pdf|...)$/i)`. -/
def hasBadExt (url : String) : Bool :=
  let low := String.mk (url.toList.map Char.toLower)
  nonHtmlExts.any (fun e => endsWithS ("." ++ e) low)

/-- Model of the external relative resolution `new URL(href, current)`,
simplified to appending the href to the current URL with its last path
segment removed; `none` where the constructor would throw.  No claim
depends on the exact resolution; the link filter re-parses the result. -/
def resolveRel (href current : String) : Option String :=
  match parseUrl current with
  | none => none
  | some _ => some (String.mk ((current.toList.reverse.dropWhile (fun c => c != '/')).reverse) ++ href)

/-- The href normalization of `discoverUrls` (src/lib/crawler.ts:135-145), in
source order of precedence: `http`-prefixed kept as-is, protocol-relative
`//...` prefixed with the seed's scheme, root-relative `/...` prefixed with
the seed's scheme and host, anything else resolved against the current page. -/
def normalizeHref (base : UrlParts) (current href : String) : Option String :=
  if startsWithL "http".toList href.toList then some href
  else if startsWithL "//".toList href.toList then some (base.protocol ++ href)
  else if startsWithL "/".toList href.toList then some (base.protocol ++ "//" ++ base.host ++ href)
  else resolveRel href current

/-- The link acceptance filter of `discoverUrls` (src/lib/crawler.ts:147-157):
re-parse the normalized URL (a throw skips the link), require the seed's
hostname, a URL neither visited nor currently queued, no `#`, no non-HTML
extension, and no `mailto:`/`tel:` occurrence. -/
def acceptLink (baseDomain : String) (visited queue : List String) (url : String) : Bool :=
  match parseUrl url with
  | none => false
  | some u =>
    u.hostname == baseDomain &&
    !(visited.contains url) && !(queue.contains url) &&
    !(substrIn "#" url) && !(hasBadExt url) &&
    !(substrIn "mailto:" url) && !(substrIn "tel:" url)

/-- The per-page link collection loop (src/lib/crawler.ts:129-163): each
non-empty href is normalized and, when accepted, appended to the local
`links` array.  `visited` and `queue` are the states the source closures
read during the scan; the local `links` accumulator is not consulted by
the filter. -/
def collectLinks (base : UrlParts) (current : String) (visited queue : List String)
    (hrefs : List String) : List String :=
  hrefs.foldl
    (fun links href =>
      if href = "" then links
      else
        match normalizeHref base current href with
        | none => links
        | some abs =>
          if acceptLink base.hostname visited queue abs then links ++ [abs] else links)
    []

/-- One processing step of the discovery loop for a dequeued, not yet
visited URL (src/lib/crawler.ts:113-170): mark visited, append to the
discovered sequence, and — when the fetch-and-parse succeeds — push the
first 10 collected links onto the frontier.  Returns the new
(visited, queue, discovered) state. -/
def discoverStep (net : String → Option (List String)) (base : UrlParts)
    (visited : List String) (current : String) (rest : List String)
    (discovered : List String) : List String × List String × List String :=
  let visited' := current :: visited
  let discovered' := discovered ++ [current]
  match net current with
  | none => (visited', rest, discovered')
  | some hrefs =>
    (visited', rest ++ (collectLinks base current visited' rest hrefs).take 10, discovered')

/-- The discovery `while` loop (src/lib/crawler.ts:109-171): continue while
the frontier is non-empty and fewer than 50 URLs are discovered; a
dequeued URL already visited is skipped without counting.  The `fuel`
argument only makes the recursion structural: each iteration strictly
decreases `11 * (50 - discovered.length) + queue.length`, so any fuel
above that measure computes the loop's actual result
(`discoverLoop_fuel_congr` below). -/
def discoverLoop (net : String → Option (List String)) (base : UrlParts) :
    Nat → List String → List String → List String → List String
  | 0, _, _, discovered => discovered
  | _ + 1, _, [], discovered => discovered
  | fuel + 1, visited, current :: rest, discovered =>
    if discovered.length < 50 then
      if visited.contains current then discoverLoop net base fuel visited rest discovered
      else
        let s := discoverStep net base visited current rest discovered
        discoverLoop net base fuel s.1 s.2.1 s.2.2
    else discovered

/-- The discovery-phase fetch of one page (src/lib/crawler.ts:118-127): a
fetch with 2 retries; a fetch failure, a non-ok status, or a parse throw
all contribute no links (`none`), otherwise the anchors' hrefs are scanned. -/
def discoverFetch (env : CrawlEnv) (url : String) : Option (List String) :=
  match fetchWithRetry url 2 (env.att url) with
  | Except.error _ => none
  | Except.ok r =>
    if r.ok = false then none
    else
      match env.parse r.html with
      | Except.error _ => none
      | Except.ok d => some d.hrefs

/-- Embedding of `discoverUrls` (src/lib/crawler.ts:92-175): parse the seed
(`new URL` throws on an invalid seed, modelled as an error), reject a seed
whose hostname has a deny-listed domain as a substring before anything
else, then run the bounded breadth-first loop seeded with the start URL.
The initial loop measure is 11 * 50 + 1 = 551, so fuel 552 suffices. -/
def discoverUrls (env : CrawlEnv) (startUrl : String) : Except String (List String) :=
  match parseUrl startUrl with
  | none => Except.error "Invalid URL"
  | some base =>
    if blockedDomains.any (fun d => substrIn d base.hostname) then
      Except.error (blockedMsg base.hostname)
    else
      Except.ok (discoverLoop (discoverFetch env) base 552 [] [startUrl] [])

/-- The tagged events delivered to the progress callback
(src/lib/crawler.ts:38-88). -/
inductive Event where
  | progress (total completed : Nat) (current : String)
  | page (p : CrawledPage)
  | complete (totalPages : Nat)
  | error (msg : String)
  deriving Repr, DecidableEq

/-- `crawlSinglePage` as invoked by the orchestrator, drawing the per-call
collaborators from the environment. -/
def crawlPage (env : CrawlEnv) (url : String) : CrawledPage × List CrawledPage :=
  crawlSinglePage (env.att url) env.parse (env.ids url) (env.now url) url

/-- The per-URL loop of `crawlWebsite` (src/lib/crawler.ts:43-75): for each
URL, a progress event with the running completed count, then the page
event for the crawled record, then the count increments.  Returns the
emitted events and the final completed count.  (`crawlSinglePage` never
rejects — its embedding is total — so the `catch` arm of the source loop,
reachable only through a rejected `storePage`, contributes nothing; the
1-second politeness pause is untimed here.) -/
def crawlLoop (env : CrawlEnv) (total : Nat) : List String → Nat → List Event × Nat
  | [], completed => ([], completed)
  | url :: rest, completed =>
    let page := (crawlPage env url).1
    let r := crawlLoop env total rest (completed + 1)
    (Event.progress total completed url :: Event.page page :: r.1, r.2)

/-- Embedding of `crawlWebsite` (src/lib/crawler.ts:24-90) as the sequence
of events it delivers to the progress callback: discovery failure or an
empty discovery produce a single error event through the top-level catch;
otherwise one initial progress event, the per-URL loop, and a final
complete event carrying the final completed count. -/
def crawlWebsite (env : CrawlEnv) (startUrl : String) : List Event :=
  match discoverUrls env startUrl with
  | Except.error e => [Event.error e]
  | Except.ok urls =>
    if urls.length = 0 then
      [Event.error "No URLs discovered. Please check if the website is accessible."]
    else
      let r := crawlLoop env urls.length urls 0
      Event.progress urls.length 0 startUrl :: (r.1 ++ [Event.complete r.2])

/-- Specification-side event sequence, written from the claim's words: for
each URL in sequence order, one progress event carrying the running
completed count and that URL, followed by one page event for its record. -/
def specEvents (env : CrawlEnv) (total : Nat) : List String → Nat → List Event
  | [], _ => []
  | url :: rest, completed =>
    Event.progress total completed url :: Event.page (crawlPage env url).1 ::
      specEvents env total rest (completed + 1)

/-- The completed counts carried by the progress events of an event list,
in delivery order. -/
def progressCompleteds : List Event → List Nat
  | [] => []
  | Event.progress _ c _ :: rest => c :: progressCompleteds rest
  | _ :: rest => progressCompleteds rest

lemma strLength_mk (l : List Char) : (String.mk l).length = l.length := rfl

lemma strToList_mk (l : List Char) : (String.mk l).toList = l := rfl

lemma strMk_ne_empty (l : List Char) (h : l ≠ []) : String.mk l ≠ "" := by
  intro he
  exact h (by simpa [strToList_mk] using congrArg String.toList he)

lemma startsWith_dot_rev (l : List Char) : startsWithL ['.'] ((l ++ ['.']).reverse) = true := by
  simp [List.reverse_append, startsWithL]

lemma endsWithS_mk_dot (l : List Char) : endsWithS "." (String.mk (l ++ ['.'])) = true := by
  simpa [endsWithS, strToList_mk] using startsWith_dot_rev l


lemma summary_final_step (s : List Char) :
    (if s.length > 300 then String.mk (s.take 300 ++ ('.' :: '.' :: '.' :: []))
     else String.mk (s ++ ['.'])).length ≤ 303 ∧
    endsWithS "."
      (if s.length > 300 then String.mk (s.take 300 ++ ('.' :: '.' :: '.' :: []))
       else String.mk (s ++ ['.'])) = true := by
  by_cases h : s.length > 300
  · simp only [if_pos h]
    refine ⟨?_, ?_⟩
    · rw [strLength_mk]
      simp [List.length_take]
    · have he : s.take 300 ++ ('.' :: '.' :: '.' :: []) = (s.take 300 ++ ['.', '.']) ++ ['.'] := by
        simp
      rw [he]
      exact endsWithS_mk_dot _
  · simp only [if_neg h]
    refine ⟨?_, ?_⟩
    · rw [strLength_mk, List.length_append]
      simp only [List.length_singleton]
      omega
    · exact endsWithS_mk_dot _

/-- Claim C8 (counterexample): on a content string that is a single
fragment of 300 characters, the summary is that fragment plus the appended
terminal period — 301 characters — so the returned summary is not at most
300 characters long. -/
theorem generateSummary_length_cex :
    ¬ ((generateSummary (String.mk (List.replicate 300 'a'))).length ≤ 300) := by
  set_option maxRecDepth 40000 in decide

/-- Claim C8 (amended): for every content string, the summary returned by
`generateSummary` is at most 303 characters long — at most 301 when the
joined trimmed text fits in 300 characters (the text plus the appended
period), and exactly 303 when the text is truncated to 300 characters and
"..." is appended — and in both cases it ends with a '.' character. -/
theorem generateSummary_length_le_303_endsDot (content : String) :
    (generateSummary content).length ≤ 303 ∧ endsWithS "." (generateSummary content) = true := by
  unfold generateSummary
  exact summary_final_step _

lemma splitRun_count (p : Char → Bool) :
    ∀ (l : List Char) (acc : List Char) (inSep : Bool), (inSep = true → acc = []) →
      ((splitRunGo p l acc inSep).filter (fun w => w.length > 0)).length =
        (wsTokensGo p l acc).length := by
  intro l
  induction l with
  | nil =>
    intro acc inSep _
    cases acc with
    | nil => simp [splitRunGo, wsTokensGo]
    | cons a as => simp [splitRunGo, wsTokensGo, List.filter]
  | cons c cs ih =>
    intro acc inSep hinv
    by_cases hp : p c
    · by_cases hsep : inSep = true
      · have hacc : acc = [] := hinv hsep
        subst hacc hsep
        simp only [splitRunGo, wsTokensGo, hp, if_true, List.isEmpty_nil]
        exact ih [] true (fun _ => rfl)
      · have hsep' : inSep = false := by
          cases inSep
          · rfl
          · exact absurd rfl hsep
        subst hsep'
        cases acc with
        | nil =>
          simp only [splitRunGo, wsTokensGo, hp, if_true, Bool.false_eq_true, if_false,
            List.reverse_nil, List.isEmpty_nil, List.filter]
          simpa using ih [] true (fun _ => rfl)
        | cons a as =>
          have ih' := ih [] true (fun _ => rfl)
          simp [splitRunGo, wsTokensGo, hp, List.filter_cons, ih']
    · simp only [splitRunGo, wsTokensGo, hp, Bool.false_eq_true, if_false]
      exact ih (c :: acc) false (by simp)

/-- Claim C9: the stored word count is the filtered length of the
JavaScript whitespace split, and that equals the number of non-empty
tokens obtained by splitting the content on runs of whitespace — for
every content string, including leading/trailing/internal whitespace —
and every `completed` record built by the crawler carries exactly this
count for its own content field. -/
theorem wordCount_tokens :
    (∀ content : String, wordCountOf content = (whitespaceTokens content).length) ∧
    (∀ att parse pageId now url p, crawlAttempt att parse pageId now url = Except.ok p →
      p.wordCount = some (wordCountOf p.content)) := by
  constructor
  · intro content
    exact splitRun_count jsWs content.toList [] false (by simp)
  · intro att parse pageId now url p h
    unfold crawlAttempt at h
    split at h
    · exact absurd h (by simp)
    · split at h
      · exact absurd h (by simp)
      · split at h
        · exact absurd h (by simp)
        · rw [Except.ok.injEq] at h
          subst h
          rfl

/-- Document with no matching content selector and no anchors, for concrete runs. -/
def docPlain : Doc := ⟨"T", "", none, none, fun _ => none, []⟩

/-- Network oracle whose every attempt succeeds with a fixed ok response. -/
def attOk : Nat → Except String Response := fun _ => Except.ok ⟨true, 200, "OK", "h"⟩

/-- The record `crawlAttempt attOk (fun _ => Except.ok docPlain) "i" "t" "u"` builds. -/
def pagePlain : CrawledPage :=
  ⟨"i", "u", "T", "", PageStatus.completed, some "t", none, some ".", some 0⟩

theorem wordCount_tokens_w :
    wordCountOf " a  b " = (whitespaceTokens " a  b ").length ∧
    pagePlain.wordCount = some (wordCountOf pagePlain.content) :=
  ⟨wordCount_tokens.1 " a  b ",
   wordCount_tokens.2 attOk (fun _ => Except.ok docPlain) "i" "t" "u" pagePlain rfl⟩

/-- Claim C10: whenever every fragment of the content between
sentence-ending punctuation marks has at most 20 characters after
trimming — in particular for the empty content string — `generateSummary`
returns exactly the one-character string "."; and for every content
string whatsoever the summary is non-empty. -/
theorem generateSummary_short_fragments :
    (∀ content : String,
      (∀ frag ∈ jsSplit sentencePunct content, (trimL frag).length ≤ 20) →
      generateSummary content = ".") ∧
    (∀ content : String, generateSummary content ≠ "") := by
  constructor
  · intro content h
    unfold generateSummary
    have hfil : (jsSplit sentencePunct content).filter (fun s => (trimL s).length > 20) = [] := by
      rw [List.filter_eq_nil_iff]
      intro frag hf
      simpa using Nat.not_lt.mpr (h frag hf)
    rw [hfil]
    rfl
  · intro content
    unfold generateSummary
    by_cases h :
      (trimL (joinDotSpace
        (((jsSplit sentencePunct content).filter (fun s => (trimL s).length > 20)).take 3))).length > 300
    · simp only [if_pos h]
      exact strMk_ne_empty _ (by simp)
    · simp only [if_neg h]
      exact strMk_ne_empty _ (by simp)

theorem generateSummary_short_fragments_w :
    (∀ frag ∈ jsSplit sentencePunct "", (trimL frag).length ≤ 20) ∧ generateSummary "" = "." :=
  ⟨by decide, generateSummary_short_fragments.1 "" (by decide)⟩

lemma fetchGo_all_fail (url : String) (att : Nat → Except String Response) :
    ∀ (rem attempt : Nat), 1 ≤ rem →
      (∀ i, attempt ≤ i → i < attempt + rem → ∃ e, att i = Except.error e) →
      fetchGo url att attempt rem =
        (if urlBlockedSubstr url then Except.error (blockedFetchMsg (hostnameOf url))
         else att (attempt + rem - 1)) := by
  intro rem
  induction rem with
  | zero => omega
  | succ r ih =>
    intro attempt _ h
    obtain ⟨e, he⟩ := h attempt (Nat.le_refl _) (by omega)
    show (match att attempt with
      | Except.ok r' => Except.ok r'
      | Except.error e =>
        if r = 0 then
          if urlBlockedSubstr url then Except.error (blockedFetchMsg (hostnameOf url))
          else Except.error e
        else fetchGo url att (attempt + 1) r) = _
    rw [he]
    by_cases hr : r = 0
    · subst hr
      have h0 : attempt + 1 - 1 = attempt := by omega
      rw [h0, he]
      simp
    · simp only [if_neg hr]
      rw [ih (attempt + 1) (by omega) (fun i h1 h2 => h i (by omega) (by omega))]
      have : attempt + 1 + r - 1 = attempt + (r + 1) - 1 := by omega
      rw [this]

/-- Claim C5 (amended): when `fetchWithRetry` exhausts all of at least one
attempt with failures, the blocked-site test is a substring match against
the whole URL string, not against its hostname: if the URL string contains
google.com, facebook.com or twitter.com, a blocked-site error naming the
URL's hostname and suggesting alternatives is raised; if the URL string
contains none of them, the error of the last attempt is propagated
unchanged. -/
theorem fetchWithRetry_exhausted (url : String) (maxRetries : Nat)
    (att : Nat → Except String Response) (h1 : 1 ≤ maxRetries)
    (hfail : ∀ i, 1 ≤ i → i ≤ maxRetries → ∃ e, att i = Except.error e) :
    (urlBlockedSubstr url = true →
      fetchWithRetry url maxRetries att = Except.error (blockedFetchMsg (hostnameOf url))) ∧
    (urlBlockedSubstr url = false → fetchWithRetry url maxRetries att = att maxRetries) := by
  have key := fetchGo_all_fail url att maxRetries 1 h1
    (fun i hi1 hi2 => hfail i hi1 (by omega))
  have hidx : 1 + maxRetries - 1 = maxRetries := by omega
  rw [hidx] at key
  constructor
  · intro hb
    rw [fetchWithRetry, key, if_pos hb]
  · intro hb
    rw [fetchWithRetry, key, hb]
    simp

theorem fetchWithRetry_exhausted_w :
    urlBlockedSubstr "https://twitter.com/x" = true ∧
    fetchWithRetry "https://twitter.com/x" 2 (fun _ => Except.error "net down") =
      Except.error (blockedFetchMsg (hostnameOf "https://twitter.com/x")) :=
  ⟨by decide,
   (fetchWithRetry_exhausted "https://twitter.com/x" 2 (fun _ => Except.error "net down")
      (by decide) (fun _ _ _ => ⟨"net down", rfl⟩)).1 (by decide)⟩

/-- Claim C5 (counterexample): the URL
`https://example.com/google.com` has hostname `example.com`, which
contains none of the blocking domains, yet after exhausting all attempts
with the network error "net down" the crawler does not propagate that
error — it raises the blocked-site message instead, because the blocked
test matches `google.com` as a substring of the whole URL string. -/
theorem fetchWithRetry_url_substring_cex :
    substrIn "google.com" (hostnameOf "https://example.com/google.com") = false ∧
    substrIn "facebook.com" (hostnameOf "https://example.com/google.com") = false ∧
    substrIn "twitter.com" (hostnameOf "https://example.com/google.com") = false ∧
    fetchWithRetry "https://example.com/google.com" 1 (fun _ => Except.error "net down") ≠
      Except.error "net down" := by
  refine ⟨by decide, by decide, by decide, fun h => ?_⟩
  have hv : fetchWithRetry "https://example.com/google.com" 1 (fun _ => Except.error "net down") =
      Except.error (blockedFetchMsg (hostnameOf "https://example.com/google.com")) := rfl
  rw [hv] at h
  have hmsg : blockedFetchMsg (hostnameOf "https://example.com/google.com") = "net down" := by
    injection h
  exact absurd hmsg (by decide)

lemma discoverStep_visited (net : String → Option (List String)) (base : UrlParts)
    (v : List String) (c : String) (rest d : List String) :
    (discoverStep net base v c rest d).1 = c :: v := by
  cases hnet : net c <;> simp [discoverStep, hnet]

lemma discoverStep_discovered (net : String → Option (List String)) (base : UrlParts)
    (v : List String) (c : String) (rest d : List String) :
    (discoverStep net base v c rest d).2.2 = d ++ [c] := by
  cases hnet : net c <;> simp [discoverStep, hnet]

lemma discoverLoop_extends (net : String → Option (List String)) (base : UrlParts) :
    ∀ (f : Nat) (v q d : List String), ∃ t, discoverLoop net base f v q d = d ++ t := by
  intro f
  induction f with
  | zero => exact fun v q d => ⟨[], by simp [discoverLoop]⟩
  | succ f ih =>
    intro v q d
    cases q with
    | nil => exact ⟨[], by simp [discoverLoop]⟩
    | cons current rest =>
      by_cases h50 : d.length < 50
      · by_cases hv : current ∈ v
        · obtain ⟨t, ht⟩ := ih v rest d
          exact ⟨t, by simp [discoverLoop, h50, hv, ht]⟩
        · obtain ⟨t, ht⟩ := ih (discoverStep net base v current rest d).1
            (discoverStep net base v current rest d).2.1 (discoverStep net base v current rest d).2.2
          refine ⟨current :: t, ?_⟩
          have hu : discoverLoop net base (f + 1) v (current :: rest) d =
              discoverLoop net base f (discoverStep net base v current rest d).1
                (discoverStep net base v current rest d).2.1
                (discoverStep net base v current rest d).2.2 := by
            simp [discoverLoop, h50, hv]
          rw [hu, ht, discoverStep_discovered]
          simp
      · exact ⟨[], by simp [discoverLoop, h50]⟩

lemma discoverLoop_nodup_le (net : String → Option (List String)) (base : UrlParts) :
    ∀ (f : Nat) (v q d : List String),
      (∀ x ∈ d, v.contains x = true) → d.Nodup → d.length ≤ 50 →
      (discoverLoop net base f v q d).Nodup ∧ (discoverLoop net base f v q d).length ≤ 50 := by
  intro f
  induction f with
  | zero => intro v q d _ h2 h3; simpa [discoverLoop] using ⟨h2, h3⟩
  | succ f ih =>
    intro v q d h1 h2 h3
    cases q with
    | nil => simpa [discoverLoop] using ⟨h2, h3⟩
    | cons current rest =>
      by_cases h50 : d.length < 50
      · by_cases hv : current ∈ v
        · have := ih v rest d h1 h2 h3
          simpa [discoverLoop, h50, hv] using this
        · have hu : discoverLoop net base (f + 1) v (current :: rest) d =
              discoverLoop net base f (discoverStep net base v current rest d).1
                (discoverStep net base v current rest d).2.1
                (discoverStep net base v current rest d).2.2 := by
            simp [discoverLoop, h50, hv]
          have hnotin : current ∉ d := by
            intro hmem
            exact hv (by simpa using h1 current hmem)
          have hsub : ∀ x ∈ (discoverStep net base v current rest d).2.2,
              ((discoverStep net base v current rest d).1).contains x = true := by
            rw [discoverStep_discovered, discoverStep_visited]
            intro x hx
            rcases List.mem_append.mp hx with hxd | hxc
            · have hxv : x ∈ v := by simpa using h1 x hxd
              simpa using List.mem_cons_of_mem current hxv
            · have hxc' : x = current := by simpa using hxc
              subst hxc'
              simp
          have hnodup : ((discoverStep net base v current rest d).2.2).Nodup := by
            rw [discoverStep_discovered]
            simp [List.nodup_append, h2, hnotin]
          have hlen : ((discoverStep net base v current rest d).2.2).length ≤ 50 := by
            rw [discoverStep_discovered]
            simp only [List.length_append, List.length_singleton]
            omega
          rw [hu]
          exact ih _ _ _ hsub hnodup hlen
      · simpa [discoverLoop, h50] using ⟨h2, h3⟩

lemma discoverRun_spec (net : String → Option (List String)) (base : UrlParts)
    (startUrl : String) :
    (discoverLoop net base 552 [] [startUrl] []).length ≤ 50 ∧
    (discoverLoop net base 552 [] [startUrl] []).Nodup ∧
    (discoverLoop net base 552 [] [startUrl] []).head? = some startUrl := by
  have hinv := discoverLoop_nodup_le net base 552 [] [startUrl] []
    (by simp) List.nodup_nil (by simp)
  refine ⟨hinv.2, hinv.1, ?_⟩
  have h1 : discoverLoop net base 552 [] [startUrl] [] =
      discoverLoop net base 551
        (discoverStep net base [] startUrl [] []).1
        (discoverStep net base [] startUrl [] []).2.1
        (discoverStep net base [] startUrl [] []).2.2 := by
    show discoverLoop net base (551 + 1) [] [startUrl] [] = _
    simp [discoverLoop]
  obtain ⟨t, ht⟩ := discoverLoop_extends net base 551
    (discoverStep net base [] startUrl [] []).1
    (discoverStep net base [] startUrl [] []).2.1
    (discoverStep net base [] startUrl [] []).2.2
  rw [h1, ht, discoverStep_discovered]
  simp

/-- Claim C1: whenever `discoverUrls` succeeds, the returned list has at
most 50 URLs, contains no URL twice, and has the seed URL as its first
element. -/
theorem discoverUrls_bounded_nodup_seed (env : CrawlEnv) (startUrl : String)
    (res : List String) (h : discoverUrls env startUrl = Except.ok res) :
    res.length ≤ 50 ∧ res.Nodup ∧ res.head? = some startUrl := by
  unfold discoverUrls at h
  split at h
  · exact absurd h (by simp)
  · split at h
    · exact absurd h (by simp)
    · rw [Except.ok.injEq] at h
      subst h
      exact discoverRun_spec _ _ _

/-- Environment whose every fetch attempt fails and whose parses fail, for
concrete runs exercising the error paths. -/
def envErr : CrawlEnv :=
  { att := fun _ _ => Except.error "net down"
    parse := fun _ => Except.error "parse failure"
    ids := fun _ => "id"
    now := fun _ => "t" }

theorem discoverUrls_bounded_nodup_seed_w :
    discoverUrls envErr "https://a.com/" = Except.ok ["https://a.com/"] ∧
    ([ "https://a.com/" ] : List String).length ≤ 50 ∧
    ([ "https://a.com/" ] : List String).Nodup ∧
    ([ "https://a.com/" ] : List String).head? = some "https://a.com/" :=
  ⟨rfl, discoverUrls_bounded_nodup_seed envErr "https://a.com/" ["https://a.com/"] rfl⟩

/-- Claim C2: for every environment of collaborators — hence irrespective
of every possible network behaviour, i.e. before any fetch can have an
effect — a seed URL whose parsed hostname contains one of the deny-listed
domains as a substring makes `discoverUrls` fail with the blocked-domain
message, which names that hostname and suggests alternative sites. -/
theorem discoverUrls_blocked (env : CrawlEnv) (startUrl : String) (base : UrlParts)
    (hp : parseUrl startUrl = some base)
    (hb : blockedDomains.any (fun d => substrIn d base.hostname) = true) :
    discoverUrls env startUrl = Except.error (blockedMsg base.hostname) := by
  unfold discoverUrls
  rw [hp]
  simp [hb]

theorem discoverUrls_blocked_w :
    parseUrl "https://google.com/a" = some ⟨"https:", "google.com", "google.com"⟩ ∧
    blockedDomains.any (fun d => substrIn d "google.com") = true ∧
    discoverUrls envErr "https://google.com/a" = Except.error (blockedMsg "google.com") :=
  ⟨by decide, by decide,
   discoverUrls_blocked envErr "https://google.com/a" ⟨"https:", "google.com", "google.com"⟩
     (by decide) (by decide)⟩

lemma acceptLink_not_visited_not_queued (baseDomain : String) (visited queue : List String)
    (url : String) (h : acceptLink baseDomain visited queue url = true) :
    visited.contains url = false ∧ queue.contains url = false := by
  unfold acceptLink at h
  split at h
  · exact absurd h (by simp)
  · simp only [Bool.and_eq_true, Bool.not_eq_true'] at h
    exact ⟨h.1.1.1.1.1.2, h.1.1.1.1.2⟩

lemma collectLinks_mem_accept (base : UrlParts) (current : String)
    (visited queue : List String) :
    ∀ (hrefs acc : List String) (link : String),
      link ∈ hrefs.foldl
        (fun links href =>
          if href = "" then links
          else
            match normalizeHref base current href with
            | none => links
            | some abs =>
              if acceptLink base.hostname visited queue abs then links ++ [abs] else links)
        acc →
      link ∈ acc ∨ acceptLink base.hostname visited queue link = true := by
  intro hrefs
  induction hrefs with
  | nil => exact fun acc link h => Or.inl h
  | cons href t ih =>
    intro acc link h
    simp only [List.foldl_cons] at h
    rcases ih _ link h with hacc | hok
    · split at hacc
      · exact Or.inl hacc
      · split at hacc
        · exact Or.inl hacc
        · split at hacc
          · rename_i abs hn ha
            rcases List.mem_append.mp hacc with h1 | h2
            · exact Or.inl h1
            · have hl : link = abs := by simpa using h2
              subst hl
              exact Or.inr ha
          · exact Or.inl hacc
    · exact Or.inr hok

/-- Claim C6 (amended): a normalized link is accepted into the per-page
`links` batch only if it is not in the visited set and not in the frontier
queue as they stood when the page's link scan began; the batch itself is
not consulted, so a page containing the same link twice enqueues it twice
(the duplicate is skipped at dequeue time and never re-crawled). -/
theorem collectLinks_guard (base : UrlParts) (current : String)
    (visited queue hrefs : List String) (link : String)
    (hmem : link ∈ collectLinks base current visited queue hrefs) :
    visited.contains link = false ∧ queue.contains link = false := by
  rcases collectLinks_mem_accept base current visited queue hrefs [] link hmem with h | h
  · exact absurd h (List.not_mem_nil link)
  · exact acceptLink_not_visited_not_queued base.hostname visited queue link h

/-- Document whose anchors list the same link twice, for the duplicate
enqueue counterexample. -/
def docDup : Doc := ⟨"", "", none, none, fun _ => none, ["http://a.com/b", "http://a.com/b"]⟩

/-- Document with no anchors. -/
def docNone : Doc := ⟨"", "", none, none, fun _ => none, []⟩

/-- Environment in which every fetch succeeds, the seed page carries the
same link twice and every other page has no links. -/
def envDup : CrawlEnv :=
  { att := fun u _ => Except.ok ⟨true, 200, "OK", u⟩
    parse := fun h => Except.ok (if h = "http://a.com/" then docDup else docNone)
    ids := fun _ => "i"
    now := fun _ => "t" }

/-- Claim C6 (counterexample): in the run of `discoverUrls envDup` on seed
`http://a.com/`, whose page carries the link `http://a.com/b` twice, the
first loop step pushes that link onto the frontier queue twice — the
second copy is added when the first copy is already present in the queue —
so the frontier is not duplicate-free; the duplicate is then skipped as
visited, leaving the discovered result itself duplicate-free. -/
theorem discoverStep_requeues_duplicate_cex :
    (discoverStep (discoverFetch envDup) ⟨"http:", "a.com", "a.com"⟩ [] "http://a.com/" [] []).2.1 =
      ["http://a.com/b", "http://a.com/b"] ∧
    ¬ ((discoverStep (discoverFetch envDup) ⟨"http:", "a.com", "a.com"⟩ [] "http://a.com/" [] []).2.1).Nodup ∧
    discoverUrls envDup "http://a.com/" = Except.ok ["http://a.com/", "http://a.com/b"] := by
  refine ⟨rfl, ?_, rfl⟩
  intro h
  rw [show (discoverStep (discoverFetch envDup) ⟨"http:", "a.com", "a.com"⟩ [] "http://a.com/" [] []).2.1 =
      ["http://a.com/b", "http://a.com/b"] from rfl] at h
  simp at h

/-- Claim C7: a URL dequeued from the frontier that is not yet visited and
fits under the 50-URL cap is marked visited and appended to the discovered
sequence even when its discovery fetch (or the parse of its body) fails:
the loop continues on the remaining queue exactly as if the page had no
links, and the failed URL still appears in the final discovered result. -/
theorem discover_failed_url_still_counts (env : CrawlEnv) (base : UrlParts) (f : Nat)
    (visited rest discovered : List String) (u : String)
    (hv : u ∉ visited) (hlen : discovered.length < 50) (hfail : discoverFetch env u = none) :
    discoverLoop (discoverFetch env) base (f + 1) visited (u :: rest) discovered =
      discoverLoop (discoverFetch env) base f (u :: visited) rest (discovered ++ [u]) ∧
    u ∈ discoverLoop (discoverFetch env) base (f + 1) visited (u :: rest) discovered := by
  have hstep : discoverStep (discoverFetch env) base visited u rest discovered =
      (u :: visited, rest, discovered ++ [u]) := by
    simp [discoverStep, hfail]
  have heq : discoverLoop (discoverFetch env) base (f + 1) visited (u :: rest) discovered =
      discoverLoop (discoverFetch env) base f (u :: visited) rest (discovered ++ [u]) := by
    simp [discoverLoop, hlen, hv, hstep]
  refine ⟨heq, ?_⟩
  rw [heq]
  obtain ⟨t, ht⟩ := discoverLoop_extends (discoverFetch env) base f (u :: visited) rest
    (discovered ++ [u])
  rw [ht]
  simp

theorem discover_failed_url_still_counts_w :
    discoverFetch envErr "https://a.com/" = none ∧
    "https://a.com/" ∈
      discoverLoop (discoverFetch envErr) ⟨"https:", "a.com", "a.com"⟩ (3 + 1) []
        ["https://a.com/"] [] :=
  ⟨rfl,
   (discover_failed_url_still_counts envErr ⟨"https:", "a.com", "a.com"⟩ 3 [] [] []
      "https://a.com/" (by simp) (by simp) rfl).2⟩

theorem collectLinks_guard_w :
    "http://a.com/b" ∈ collectLinks ⟨"http:", "a.com", "a.com"⟩ "http://a.com/"
      ["http://a.com/"] [] ["http://a.com/b"] ∧
    (["http://a.com/"] : List String).contains "http://a.com/b" = false ∧
    ([] : List String).contains "http://a.com/b" = false :=
  ⟨by decide,
   collectLinks_guard ⟨"http:", "a.com", "a.com"⟩ "http://a.com/" ["http://a.com/"] []
     ["http://a.com/b"] "http://a.com/b" (by decide)⟩

lemma crawlAttempt_ok_fields (att : Nat → Except String Response)
    (parse : String → Except String Doc) (pageId now url : String) (p : CrawledPage)
    (h : crawlAttempt att parse pageId now url = Except.ok p) :
    p.id = pageId ∧ p.url = url ∧ p.status = PageStatus.completed ∧
    p.crawledAt = some now ∧ p.error = none := by
  unfold crawlAttempt at h
  split at h
  · exact absurd h (by simp)
  · split at h
    · exact absurd h (by simp)
    · split at h
      · exact absurd h (by simp)
      · rw [Except.ok.injEq] at h
        subst h
        exact ⟨rfl, rfl, rfl, rfl, rfl⟩

lemma crawlSinglePage_of_error (att : Nat → Except String Response)
    (parse : String → Except String Doc) (pageId now url : String) (e : String)
    (h : crawlAttempt att parse pageId now url = Except.error e) :
    crawlSinglePage att parse pageId now url =
      ({ id := pageId, url := url, title := "Error", content := "",
         status := PageStatus.error, error := some e, crawledAt := some now,
         wordCount := some 0, summary := none },
       [{ id := pageId, url := url, title := "Error", content := "",
          status := PageStatus.error, error := some e, crawledAt := some now,
          wordCount := some 0, summary := none }]) := by
  unfold crawlSinglePage
  rw [h]

lemma crawlSinglePage_of_ok (att : Nat → Except String Response)
    (parse : String → Except String Doc) (pageId now url : String) (p : CrawledPage)
    (h : crawlAttempt att parse pageId now url = Except.ok p) :
    crawlSinglePage att parse pageId now url = (p, [p]) := by
  unfold crawlSinglePage
  rw [h]

/-- Claim C3: `crawlSinglePage` always returns a page record — its
embedding is total, every failure of the fallible part being converted by
the catch into the error record — the record is stored exactly once, so the
storage trace is the returned record itself (persisted before returning,
in both outcomes); on any failure the record has status `error`, empty
content, word count 0, the failure's message, title "Error" and the
current timestamp; on success it is the `completed` record of the attempt,
also timestamped, with no error field. -/
theorem crawlSinglePage_total_persists (att : Nat → Except String Response)
    (parse : String → Except String Doc) (pageId now url : String) :
    (crawlSinglePage att parse pageId now url).2 = [(crawlSinglePage att parse pageId now url).1] ∧
    (crawlSinglePage att parse pageId now url).1.id = pageId ∧
    (crawlSinglePage att parse pageId now url).1.url = url ∧
    (crawlSinglePage att parse pageId now url).1.crawledAt = some now ∧
    (∀ e, crawlAttempt att parse pageId now url = Except.error e →
      (crawlSinglePage att parse pageId now url).1.status = PageStatus.error ∧
      (crawlSinglePage att parse pageId now url).1.content = "" ∧
      (crawlSinglePage att parse pageId now url).1.wordCount = some 0 ∧
      (crawlSinglePage att parse pageId now url).1.error = some e ∧
      (crawlSinglePage att parse pageId now url).1.title = "Error") ∧
    (∀ p, crawlAttempt att parse pageId now url = Except.ok p →
      (crawlSinglePage att parse pageId now url).1 = p ∧
      p.status = PageStatus.completed ∧ p.error = none) := by
  cases hca : crawlAttempt att parse pageId now url with
  | error e0 =>
    rw [crawlSinglePage_of_error att parse pageId now url e0 hca]
    refine ⟨rfl, rfl, rfl, rfl, ?_, ?_⟩
    · intro e he
      have h0 : e0 = e := by injection he
      subst h0
      exact ⟨rfl, rfl, rfl, rfl, rfl⟩
    · intro p hp
      exact absurd hp (by simp)
  | ok p0 =>
    have hf := crawlAttempt_ok_fields att parse pageId now url p0 hca
    rw [crawlSinglePage_of_ok att parse pageId now url p0 hca]
    refine ⟨rfl, hf.1, hf.2.1, hf.2.2.2.1, ?_, ?_⟩
    · intro e he
      exact absurd he (by simp)
    · intro p hp
      have h0 : p0 = p := by injection hp
      subst h0
      exact ⟨rfl, hf.2.2.1, hf.2.2.2.2⟩

theorem crawlSinglePage_total_persists_w :
    (crawlSinglePage (fun _ => Except.error "net down") (fun _ => Except.error "parse failure")
        "i" "t" "u").2 =
      [(crawlSinglePage (fun _ => Except.error "net down") (fun _ => Except.error "parse failure")
        "i" "t" "u").1] ∧
    (crawlSinglePage (fun _ => Except.error "net down") (fun _ => Except.error "parse failure")
        "i" "t" "u").1.status = PageStatus.error ∧
    (crawlSinglePage (fun _ => Except.error "net down") (fun _ => Except.error "parse failure")
        "i" "t" "u").1.content = "" ∧
    (crawlSinglePage (fun _ => Except.error "net down") (fun _ => Except.error "parse failure")
        "i" "t" "u").1.wordCount = some 0 ∧
    (crawlSinglePage (fun _ => Except.error "net down") (fun _ => Except.error "parse failure")
        "i" "t" "u").1.error = some "net down" :=
  have h := crawlSinglePage_total_persists (fun _ => Except.error "net down")
    (fun _ => Except.error "parse failure") "i" "t" "u"
  have he := h.2.2.2.2.1 "net down" rfl
  ⟨h.1, he.1, he.2.1, he.2.2.1, he.2.2.2.1⟩

lemma crawlLoop_eq_specEvents (env : CrawlEnv) (total : Nat) :
    ∀ (urls : List String) (completed : Nat),
      crawlLoop env total urls completed =
        (specEvents env total urls completed, completed + urls.length) := by
  intro urls
  induction urls with
  | nil => intro completed; simp [crawlLoop, specEvents]
  | cons url rest ih =>
    intro completed
    simp only [crawlLoop, specEvents, ih (completed + 1)]
    refine Prod.ext rfl ?_
    simp only [List.length_cons]
    omega

lemma progressCompleteds_append (a b : List Event) :
    progressCompleteds (a ++ b) = progressCompleteds a ++ progressCompleteds b := by
  induction a with
  | nil => rfl
  | cons e rest ih =>
    cases e <;> simp [progressCompleteds, ih]

lemma progressCompleteds_specEvents (env : CrawlEnv) (total : Nat) :
    ∀ (urls : List String) (completed : Nat),
      progressCompleteds (specEvents env total urls completed) =
        List.range' completed urls.length := by
  intro urls
  induction urls with
  | nil => intro completed; rfl
  | cons url rest ih =>
    intro completed
    simp only [specEvents, progressCompleteds, List.length_cons, List.range'_succ, ih]

lemma chain_le_range' : ∀ (n s : Nat), List.Chain' (· ≤ ·) (List.range' s n) := by
  intro n
  induction n with
  | zero => intro s; simp
  | succ m ih =>
    intro s
    rw [List.range'_succ]
    cases m with
    | zero => simp
    | succ k =>
      rw [List.range'_succ]
      rw [List.chain'_cons]
      refine ⟨by omega, ?_⟩
      rw [← List.range'_succ]
      exact ih (s + 1)

lemma chain_le_zero_range' (n : Nat) : List.Chain' (· ≤ ·) (0 :: List.range' 0 n) := by
  cases n with
  | zero => simp
  | succ m =>
    rw [List.range'_succ, List.chain'_cons]
    exact ⟨Nat.le_refl 0, by rw [← List.range'_succ]; exact chain_le_range' (m + 1) 0⟩

/-- Claim C4: the events delivered by one run of `crawlWebsite` are
exactly, in order: on a fatal discovery failure a single error event;
on an empty discovery the single no-URLs error event; and otherwise one
initial progress event (total = number of discovered URLs, completed = 0,
current = seed), then for each discovered URL in sequence order one
progress event carrying the running completed count and that URL followed
by one page event for its record, then one complete event carrying the
final completed count (which equals the total) — nothing is skipped or
reordered, and in every case the completed counts of successive progress
events are monotonically non-decreasing. -/
theorem crawlWebsite_events (env : CrawlEnv) (startUrl : String) :
    (∀ e, discoverUrls env startUrl = Except.error e →
      crawlWebsite env startUrl = [Event.error e]) ∧
    (discoverUrls env startUrl = Except.ok [] →
      crawlWebsite env startUrl =
        [Event.error "No URLs discovered. Please check if the website is accessible."]) ∧
    (∀ urls, discoverUrls env startUrl = Except.ok urls → urls ≠ [] →
      crawlWebsite env startUrl =
        Event.progress urls.length 0 startUrl ::
          (specEvents env urls.length urls 0 ++ [Event.complete urls.length])) ∧
    List.Chain' (· ≤ ·) (progressCompleteds (crawlWebsite env startUrl)) := by
  cases hd : discoverUrls env startUrl with
  | error e0 =>
    have hw : crawlWebsite env startUrl = [Event.error e0] := by
      unfold crawlWebsite
      rw [hd]
    refine ⟨?_, ?_, ?_, ?_⟩
    · intro e he
      have h0 : e0 = e := by injection he
      subst h0
      exact hw
    · intro he
      exact absurd he (by simp)
    · intro urls hu
      exact absurd hu (by simp)
    · rw [hw]
      simp [progressCompleteds]
  | ok urls0 =>
    cases urls0 with
    | nil =>
      have hw : crawlWebsite env startUrl =
          [Event.error "No URLs discovered. Please check if the website is accessible."] := by
        unfold crawlWebsite
        rw [hd]
        rfl
      refine ⟨?_, ?_, ?_, ?_⟩
      · intro e he
        exact absurd he (by simp)
      · intro _
        exact hw
      · intro urls hu hne
        have h0 : ([] : List String) = urls := by injection hu
        subst h0
        exact absurd rfl hne
      · rw [hw]
        simp [progressCompleteds]
    | cons u0 rest0 =>
      have hw : crawlWebsite env startUrl =
          Event.progress (u0 :: rest0).length 0 startUrl ::
            (specEvents env (u0 :: rest0).length (u0 :: rest0) 0 ++
              [Event.complete (u0 :: rest0).length]) := by
        unfold crawlWebsite
        rw [hd]
        simp [crawlLoop_eq_specEvents]
      refine ⟨?_, ?_, ?_, ?_⟩
      · intro e he
        exact absurd he (by simp)
      · intro he
        have : u0 :: rest0 = ([] : List String) := by injection he
        exact absurd this (by simp)
      · intro urls hu _
        have h0 : u0 :: rest0 = urls := by injection hu
        subst h0
        exact hw
      · rw [hw]
        have h1 : progressCompleteds
            (Event.progress (u0 :: rest0).length 0 startUrl ::
              (specEvents env (u0 :: rest0).length (u0 :: rest0) 0 ++
                [Event.complete (u0 :: rest0).length])) =
            0 :: progressCompleteds
              (specEvents env (u0 :: rest0).length (u0 :: rest0) 0 ++
                [Event.complete (u0 :: rest0).length]) := rfl
        rw [h1, progressCompleteds_append, progressCompleteds_specEvents]
        have h2 : progressCompleteds [Event.complete (u0 :: rest0).length] = [] := rfl
        rw [h2, List.append_nil]
        exact chain_le_zero_range' (u0 :: rest0).length

theorem crawlWebsite_events_w :
    discoverUrls envErr "https://a.com/" = Except.ok ["https://a.com/"] ∧
    crawlWebsite envErr "https://a.com/" =
      Event.progress 1 0 "https://a.com/" ::
        (specEvents envErr 1 ["https://a.com/"] 0 ++ [Event.complete 1]) :=
  ⟨rfl,
   (crawlWebsite_events envErr "https://a.com/").2.2.1 ["https://a.com/"] rfl (by simp)⟩

lemma discoverStep_queue_len (net : String → Option (List String)) (base : UrlParts)
    (v : List String) (c : String) (rest d : List String) :
    (discoverStep net base v c rest d).2.1.length ≤ rest.length + 10 := by
  cases hnet : net c with
  | none => simp [discoverStep, hnet]
  | some hrefs =>
    simp only [discoverStep, hnet]
    simp only [List.length_append]
    have := List.length_take_le 10 (collectLinks base c (c :: v) rest hrefs)
    omega

lemma discoverLoop_fuel_congr (net : String → Option (List String)) (base : UrlParts) :
    ∀ (f g : Nat) (v q d : List String),
      11 * (50 - d.length) + q.length < f → 11 * (50 - d.length) + q.length < g →
      discoverLoop net base f v q d = discoverLoop net base g v q d := by
  intro f
  induction f with
  | zero => omega
  | succ f ih =>
    intro g v q d hf hg
    cases g with
    | zero => omega
    | succ g =>
      cases q with
      | nil => simp [discoverLoop]
      | cons current rest =>
        by_cases h50 : d.length < 50
        · by_cases hv : current ∈ v
          · have hrec := ih g v rest d (by simp at hf ⊢; omega) (by simp at hg ⊢; omega)
            simpa [discoverLoop, h50, hv] using hrec
          · have hq := discoverStep_queue_len net base v current rest d
            have hd := discoverStep_discovered net base v current rest d
            have hdl : (discoverStep net base v current rest d).2.2.length = d.length + 1 := by
              rw [hd]; simp
            have hrec := ih g (discoverStep net base v current rest d).1
              (discoverStep net base v current rest d).2.1
              (discoverStep net base v current rest d).2.2
              (by rw [hdl]; simp at hf ⊢; omega)
              (by rw [hdl]; simp at hg ⊢; omega)
            simpa [discoverLoop, h50, hv] using hrec
        · simp [discoverLoop, h50]
